import Mathlib

/-!
Verification development for the sandboxed file-change application engine
(`src/fileEngine`): the path sandbox resolver `resolveProjectPath` and the
change application engine `applyAgentResult` / `applySingleChange`.

Strings are modelled as `List Char` (`Str`).  The POSIX flavour of
`node:path` is modelled: `path.sep = '/'`, and `path.resolve` is modelled by
splitting on `'/'`, normalizing `.`/`..`/empty segments left to right, and
re-joining with a leading separator.  The filesystem is modelled as a pure
state (`FS`): a list of (absolute path, content) files plus a list of
directories, threaded explicitly; the effectful primitives
(`writeFileSafe`, `deleteFileSafe`) become state transformers.  Spontaneous
host-filesystem failures (permission denied, disk full, ...) have no pure
counterpart, so in the model the write/delete primitives do not fail on
their own; the ENOENT-normalisation of `deleteFileSafe` is modelled at the
level of `unlink` outcomes.  The optional `logger` observer is modelled by
returning the list of emitted event strings.
-/

deriving instance DecidableEq for Except

/-- Strings of the JS source are modelled as lists of characters. -/
abbrev Str := List Char

/-- Model of `toPosixPath`: convert Windows-style separators to POSIX ones
(`filePath.replace(/\\/g, '/')`). -/
def toPosixPath (p : Str) : Str :=
  p.map (fun c => if c = '\\' then '/' else c)

/-- Split a path string on `'/'`.  `splitSeg "a/b" = ["a", "b"]`, with empty
segments kept (duplicate separators, leading separator). -/
def splitSeg : Str → List Str
  | [] => [[]]
  | c :: rest =>
    if c = '/' then [] :: splitSeg rest
    else
      match splitSeg rest with
      | [] => [[c]]
      | s :: ss => (c :: s) :: ss

/-- One step of `path.resolve`'s segment normalisation: drop empty and `"."`
segments, let `".."` pop the previous segment (at the root, excess `".."` is
dropped, as for absolute paths in Node), keep everything else. -/
def normalizeStep (acc : List Str) (s : Str) : List Str :=
  if s = [] ∨ s = ['.'] then acc
  else if s = ['.', '.'] then acc.dropLast
  else acc ++ [s]

/-- Normalise a list of path segments (absolute-path semantics). -/
def normalizeSegs (segs : List Str) : List Str :=
  segs.foldl normalizeStep []

/-- Join segments into an absolute path string without the root special
case: `joinAbs ["a","b"] = "/a/b"`, `joinAbs [] = ""`. -/
def joinAbs : List Str → Str
  | [] => []
  | s :: rest => '/' :: (s ++ joinAbs rest)

/-- Render normalised absolute-path segments the way `path.resolve` does:
the empty segment list is the filesystem root `"/"`. -/
def absString (segs : List Str) : Str :=
  if segs = [] then ['/'] else joinAbs segs

/-- Segment-level model of `path.resolve(rootDir, rel)` for an absolute
`rootDir`: an absolute `rel` ignores `rootDir`; otherwise the two are
joined and normalised (splitting the joined string on `'/'` yields the
concatenation of the two splits). -/
def resolveSegs (rootDir rel : Str) : List Str :=
  if rel.head? = some '/' then normalizeSegs (splitSeg rel)
  else normalizeSegs (splitSeg rootDir ++ splitSeg rel)

/-- Segments of the canonical root, `path.resolve(rootDir)` for an absolute
`rootDir`. -/
def canonSegs (rootDir : Str) : List Str :=
  normalizeSegs (splitSeg rootDir)

/-- Boolean list-prefix test; `isPrefixB pre l` models
`l.startsWith(pre)` of JS strings. -/
def isPrefixB {α : Type} [DecidableEq α] : List α → List α → Bool
  | [], _ => true
  | _ :: _, [] => false
  | x :: xs, y :: ys => if x = y then isPrefixB xs ys else false

/-- The error taxonomy of `src/fileEngine/errors.ts` (the message payloads
are irrelevant to the claims and omitted). -/
inductive FileEngineError where
  | invalidPathError
  | fileSystemOperationError
deriving DecidableEq, Repr

/-- Model of `resolveProjectPath(rootDir, relativePath)`: normalise
separators, fully resolve against the root, and reject unless the resolved
path equals the canonical root or starts with the canonical root followed
by the separator. -/
def resolveProjectPath (rootDir relativePath : Str) : Except FileEngineError Str :=
  let normalized := toPosixPath relativePath
  let resolved := absString (resolveSegs rootDir normalized)
  let normalizedRoot := absString (canonSegs rootDir)
  if ¬ (isPrefixB (normalizedRoot ++ ['/']) resolved = true) ∧ ¬ (resolved = normalizedRoot) then
    .error .invalidPathError
  else
    .ok resolved

example : resolveProjectPath "/proj".data "..file.txt".data = .ok "/proj/..file.txt".data := by
  decide

example : resolveProjectPath "/proj".data "../x".data = .error .invalidPathError := by
  decide

example : resolveProjectPath "/proj".data "/etc/passwd".data = .error .invalidPathError := by
  decide

example : resolveProjectPath "/proj".data "a/../../b".data = .error .invalidPathError := by
  decide

example : resolveProjectPath "/proj".data "a\\b.txt".data = .ok "/proj/a/b.txt".data := by
  decide

example : resolveProjectPath "/proj".data "a/../b.txt".data = .ok "/proj/b.txt".data := by
  decide

/-! ## Change application engine: data model -/

/-- The statuses of `src/fileEngine/types.ts` (`FileOperationStatus`). -/
inductive FileOperationStatus where
  | created
  | updated
  | deleted
  | skipped
deriving DecidableEq, Repr

/-- A requested change (the `AgentFileChange` boundary type): a
project-relative path, an action string (`"create"`, `"update"`,
`"delete"`, `"noop"`, or anything else for the `default` switch branch),
and optional content.  `content = none` models `typeof content !==
'string'`. -/
structure AgentFileChange where
  path : Str
  action : Str
  content : Option Str
deriving DecidableEq, Repr

/-- `FileOperationResult` of `src/fileEngine/types.ts`. -/
structure FileOperationResult where
  change : AgentFileChange
  status : FileOperationStatus
  message : Option Str
deriving DecidableEq, Repr

/-- The `counts` record of `ApplyAgentResultSummary`. -/
structure Counts where
  created : Nat
  updated : Nat
  deleted : Nat
  skipped : Nat
deriving DecidableEq, Repr

/-- `ApplyAgentResultSummary` of `src/fileEngine/types.ts`. -/
structure ApplyAgentResultSummary where
  operations : List FileOperationResult
  dryRun : Bool
  counts : Counts
deriving DecidableEq, Repr

/-- Pure filesystem state: files as (absolute path, content) pairs and the
set of existing directories (needed to observe `mkdir -p` effects). -/
structure FS where
  files : List (Str × Str)
  dirs : List Str
deriving DecidableEq, Repr

/-! ## Filesystem primitives (`src/fileEngine/fileSystem.ts`) -/

/-- Model of `path.dirname` on the normalised absolute paths the engine
passes to it: drop the last segment. -/
def dirname (p : Str) : Str :=
  absString ((normalizeSegs (splitSeg p)).dropLast)

/-- All ancestor directories a recursive `mkdir` of `dir` creates:
`"/a/b"` yields `["/a", "/a/b"]`. -/
def ancestorPaths (dir : Str) : List Str :=
  let segs := normalizeSegs (splitSeg dir)
  (List.range segs.length).map (fun i => absString (segs.take (i + 1)))

/-- Model of `fs.mkdir(dir, { recursive: true })`: add every missing
ancestor directory. -/
def mkdirRecursive (dir : Str) (fs : FS) : FS :=
  { fs with
    dirs := (ancestorPaths dir).foldl (fun ds d => if d ∈ ds then ds else ds ++ [d]) fs.dirs }

/-- Model of `ensureDirectoryExists(filePath)`: recursively create the
parent directory of `filePath`. -/
def ensureDirectoryExists (filePath : Str) (fs : FS) : FS :=
  mkdirRecursive (dirname filePath) fs

/-- Insert or overwrite the file at `p` (the `fs.writeFile` overwrite
semantics). -/
def setFile (p content : Str) (files : List (Str × Str)) : List (Str × Str) :=
  if files.any (fun e => e.1 = p) then
    files.map (fun e => if e.1 = p then (p, content) else e)
  else
    files ++ [(p, content)]

/-- Model of `writeFileSafe`: ensure the parent directories exist, then
write the content.  In the pure model the underlying primitives cannot
fail, so the `FileSystemOperationError` catch branch is never taken. -/
def writeFileSafe (filePath content : Str) (fs : FS) : Except FileEngineError FS :=
  let fs1 := ensureDirectoryExists filePath fs
  .ok { fs1 with files := setFile filePath content fs1.files }

/-- Outcome of the raw `fs.unlink` call. -/
inductive UnlinkResult where
  | ok
  | enoent
  | otherError
deriving DecidableEq, Repr

/-- Model of `fs.unlink` on the pure state: remove the file if present,
report `ENOENT` otherwise. -/
def unlink (p : Str) (fs : FS) : UnlinkResult × FS :=
  if fs.files.any (fun e => e.1 = p) then
    (.ok, { fs with files := fs.files.filter (fun e => ¬ e.1 = p) })
  else
    (.enoent, fs)

/-- The error normalisation of `deleteFileSafe`: `ENOENT` is treated as
success (idempotent delete); any other failure becomes a
`FileSystemOperationError`. -/
def deleteFileSafeOutcome : UnlinkResult → Except FileEngineError Unit
  | .ok => .ok ()
  | .enoent => .ok ()
  | .otherError => .error .fileSystemOperationError

/-- Model of `deleteFileSafe`: unlink and normalise the outcome. -/
def deleteFileSafe (p : Str) (fs : FS) : Except FileEngineError FS :=
  match unlink p fs with
  | (res, fs1) => (deleteFileSafeOutcome res).map (fun _ => fs1)

/-! ## The engine (`src/fileEngine/apply.ts`) -/

/-- Uppercase an action string (`change.action.toUpperCase()`). -/
def upperStr (s : Str) : Str := s.map Char.toUpper

/-- Model of `applySingleChange(change, { rootDir, dryRun, logger })`.
The result triple is (operation result, new filesystem state, logger
events emitted for this change, in order). -/
def applySingleChange (change : AgentFileChange) (rootDir : Str) (dryRun : Bool) (fs : FS) :
    Except FileEngineError (FileOperationResult × FS × List Str) :=
  match resolveProjectPath rootDir change.path with
  | .error e => .error e
  | .ok targetPath =>
    if change.action = "create".data ∨ change.action = "update".data then
      match change.content with
      | none =>
        .ok ({ change := change, status := .skipped,
               message := some "Missing content for create/update action.".data }, fs, [])
      | some content =>
        match (if dryRun then .ok fs else writeFileSafe targetPath content fs :
               Except FileEngineError FS) with
        | .error e => .error e
        | .ok fs1 =>
          .ok ({ change := change,
                 status := if change.action = "create".data then .created else .updated,
                 message := some (if dryRun then "Dry-run: file would be written.".data
                                  else "File written successfully.".data) },
               fs1, [upperStr change.action ++ ": ".data ++ change.path])
    else if change.action = "delete".data then
      match (if dryRun then .ok fs else deleteFileSafe targetPath fs :
             Except FileEngineError FS) with
      | .error e => .error e
      | .ok fs1 =>
        .ok ({ change := change, status := .deleted,
               message := some (if dryRun then "Dry-run: file would be deleted.".data
                                else "File deleted (or already absent).".data) },
             fs1, ["DELETE: ".data ++ change.path])
    else
      .ok ({ change := change, status := .skipped,
             message := some "No action (noop).".data },
           fs, ["SKIP (noop): ".data ++ change.path])

/-- The per-change loop of `applyAgentResult`, accumulating results, state
and logger events in input order. -/
def applyChanges (files : List AgentFileChange) (rootDir : Str) (dryRun : Bool) (fs : FS) :
    Except FileEngineError (List FileOperationResult × FS × List Str) :=
  match files with
  | [] => .ok ([], fs, [])
  | c :: rest =>
    match applySingleChange c rootDir dryRun fs with
    | .error e => .error e
    | .ok (op, fs1, evs1) =>
      match applyChanges rest rootDir dryRun fs1 with
      | .error e => .error e
      | .ok (ops, fs2, evs2) => .ok (op :: ops, fs2, evs1 ++ evs2)

/-- One step of the `operations.reduce` that builds the counts. -/
def countStep (acc : Counts) (op : FileOperationResult) : Counts :=
  match op.status with
  | .created => { acc with created := acc.created + 1 }
  | .updated => { acc with updated := acc.updated + 1 }
  | .deleted => { acc with deleted := acc.deleted + 1 }
  | .skipped => { acc with skipped := acc.skipped + 1 }

/-- The counts tally of `applyAgentResult` (`operations.reduce(...)` from
the all-zero accumulator). -/
def tallyCounts (ops : List FileOperationResult) : Counts :=
  ops.foldl countStep ⟨0, 0, 0, 0⟩

/-- Model of `applyAgentResult(result, options)`: process `result.files`
in order, then assemble the summary.  A thrown `InvalidPathError` or
`FileSystemOperationError` is the `.error` case: no summary, no state, no
events are returned. -/
def applyAgentResult (files : List AgentFileChange) (rootDir : Str) (dryRun : Bool) (fs : FS) :
    Except FileEngineError (ApplyAgentResultSummary × FS × List Str) :=
  match applyChanges files rootDir dryRun fs with
  | .error e => .error e
  | .ok (ops, fs1, evs) =>
    .ok ({ operations := ops, dryRun := dryRun, counts := tallyCounts ops }, fs1, evs)

example :
    applyAgentResult [⟨"src/x.ts".data, "create".data, some "body".data⟩] "/proj".data true ⟨[], []⟩
      = .ok ({ operations := [⟨⟨"src/x.ts".data, "create".data, some "body".data⟩, .created,
                               some "Dry-run: file would be written.".data⟩],
               dryRun := true, counts := ⟨1, 0, 0, 0⟩ }, ⟨[], []⟩,
             ["CREATE: src/x.ts".data]) := by
  decide

/-! ## Path resolver lemmas -/

/-- A well-formed normalised path segment: nonempty and separator-free. -/
def GoodSeg (s : Str) : Prop := s ≠ [] ∧ '/' ∉ s

theorem splitSeg_no_slash : ∀ (p : Str), ∀ s ∈ splitSeg p, '/' ∉ s := by
  intro p
  induction p with
  | nil =>
    intro s hs
    simp [splitSeg] at hs
    subst hs
    simp
  | cons c rest ih =>
    intro s hs
    by_cases hc : c = '/'
    · simp [splitSeg, hc] at hs
      rcases hs with h | h
      · subst h; simp
      · exact ih s h
    · simp only [splitSeg, if_neg hc] at hs
      cases hr : splitSeg rest with
      | nil =>
        rw [hr] at hs
        simp at hs
        subst hs
        intro hmem
        rw [List.mem_singleton] at hmem
        exact hc hmem.symm
      | cons s0 ss =>
        rw [hr] at hs
        simp at hs
        rcases hs with h | h
        · subst h
          intro hmem
          rcases List.mem_cons.mp hmem with h1 | h1
          · exact hc h1.symm
          · exact ih s0 (by rw [hr]; exact List.mem_cons_self _ _) h1
        · exact ih s (by rw [hr]; exact List.mem_cons_of_mem _ h)

theorem foldl_normalizeStep_good :
    ∀ (segs : List Str) (acc : List Str), (∀ x ∈ acc, GoodSeg x) → (∀ s ∈ segs, '/' ∉ s) →
      ∀ x ∈ segs.foldl normalizeStep acc, GoodSeg x := by
  intro segs
  induction segs with
  | nil =>
    intro acc hacc _
    simpa using hacc
  | cons s rest ih =>
    intro acc hacc hseg
    simp only [List.foldl_cons]
    apply ih
    · intro x hx
      unfold normalizeStep at hx
      split at hx
      · exact hacc x hx
      · split at hx
        · exact hacc x (List.mem_of_mem_dropLast hx)
        · rcases List.mem_append.mp hx with h | h
          · exact hacc x h
          · simp at h
            subst h
            refine ⟨?_, hseg x (List.mem_cons_self _ _)⟩
            rename_i hnot _
            intro hx0
            exact hnot (Or.inl hx0)
    · intro t ht
      exact hseg t (List.mem_cons_of_mem _ ht)

theorem normalizeSegs_good (segs : List Str) (h : ∀ s ∈ segs, '/' ∉ s) :
    ∀ x ∈ normalizeSegs segs, GoodSeg x :=
  foldl_normalizeStep_good segs [] (by simp) h

theorem resolveSegs_good (rootDir rel : Str) :
    ∀ x ∈ resolveSegs rootDir rel, GoodSeg x := by
  unfold resolveSegs
  split
  · exact normalizeSegs_good _ (splitSeg_no_slash rel)
  · apply normalizeSegs_good
    intro s hs
    rcases List.mem_append.mp hs with h | h
    · exact splitSeg_no_slash rootDir s h
    · exact splitSeg_no_slash rel s h

theorem canonSegs_good (rootDir : Str) : ∀ x ∈ canonSegs rootDir, GoodSeg x :=
  normalizeSegs_good _ (splitSeg_no_slash rootDir)

theorem joinAbs_append (a b : List Str) : joinAbs (a ++ b) = joinAbs a ++ joinAbs b := by
  induction a with
  | nil => simp [joinAbs]
  | cons s rest ih => simp [joinAbs, ih]

theorem joinAbs_eq_nil (a : List Str) : joinAbs a = [] ↔ a = [] := by
  cases a <;> simp [joinAbs]

theorem joinAbs_append_sep (c : List Str) : ∃ w, joinAbs c ++ ['/'] = '/' :: w := by
  cases c with
  | nil => exact ⟨[], rfl⟩
  | cons s rest => exact ⟨s ++ joinAbs rest ++ ['/'], by simp [joinAbs]⟩

theorem no_slash_of_sep_prefix {s u t : Str} (ht : '/' ∉ t)
    (h : (s ++ '/' :: u) <+: t) : False := by
  obtain ⟨w, hw⟩ := h
  apply ht
  rw [← hw]
  simp

theorem sep_prefix_split : ∀ (s t u v : Str), '/' ∉ s → '/' ∉ t →
    ((s ++ '/' :: u) <+: (t ++ '/' :: v)) → s = t ∧ u <+: v := by
  intro s
  induction s with
  | nil =>
    intro t u v _ ht h
    cases t with
    | nil =>
      simp only [List.nil_append] at h
      exact ⟨rfl, (List.cons_prefix_cons.mp h).2⟩
    | cons b t' =>
      exfalso
      simp only [List.nil_append, List.cons_append] at h
      have hb := (List.cons_prefix_cons.mp h).1
      exact ht (by rw [← hb]; exact List.mem_cons_self _ _)
  | cons a s' ih =>
    intro t u v hs ht h
    cases t with
    | nil =>
      exfalso
      simp only [List.nil_append, List.cons_append] at h
      have ha := (List.cons_prefix_cons.mp h).1
      exact hs (by rw [ha]; exact List.mem_cons_self _ _)
    | cons b t' =>
      simp only [List.cons_append] at h
      obtain ⟨hab, h'⟩ := List.cons_prefix_cons.mp h
      have hs' : '/' ∉ s' := fun hm => hs (List.mem_cons_of_mem _ hm)
      have ht' : '/' ∉ t' := fun hm => ht (List.mem_cons_of_mem _ hm)
      obtain ⟨he, hp⟩ := ih t' u v hs' ht' h'
      exact ⟨by rw [hab, he], hp⟩

theorem joinAbs_sep_prefix_iff :
    ∀ (c a : List Str), (∀ s ∈ c, GoodSeg s) → (∀ s ∈ a, GoodSeg s) →
      (((joinAbs c ++ ['/']) <+: joinAbs a) ↔ ∃ d, d ≠ [] ∧ a = c ++ d) := by
  intro c
  induction c with
  | nil =>
    intro a _ _
    constructor
    · intro h
      cases a with
      | nil =>
        exfalso
        obtain ⟨w, hw⟩ := h
        simp [joinAbs] at hw
      | cons s a' => exact ⟨s :: a', List.cons_ne_nil s a', rfl⟩
    · rintro ⟨d, hd, hEq⟩
      rw [hEq]
      cases d with
      | nil => exact absurd rfl hd
      | cons s d' =>
        simp only [joinAbs, List.nil_append]
        exact ⟨s ++ joinAbs d', rfl⟩
  | cons s c' ih =>
    intro a hc ha
    constructor
    · intro h
      cases a with
      | nil =>
        exfalso
        obtain ⟨w, hw⟩ := h
        simp [joinAbs] at hw
      | cons t a' =>
        have h1 : ('/' :: (s ++ (joinAbs c' ++ ['/']))) <+: ('/' :: (t ++ joinAbs a')) := by
          simpa [joinAbs] using h
        have h' : (s ++ (joinAbs c' ++ ['/'])) <+: (t ++ joinAbs a') :=
          (List.cons_prefix_cons.mp h1).2
        obtain ⟨w, hw⟩ := joinAbs_append_sep c'
        cases a' with
        | nil =>
          exfalso
          rw [hw] at h'
          exact no_slash_of_sep_prefix (ha t (List.mem_cons_self _ _)).2
            (by simpa [joinAbs] using h')
        | cons t2 a'' =>
          rw [hw] at h'
          have h'' : (s ++ '/' :: w) <+: (t ++ '/' :: (t2 ++ joinAbs a'')) := by
            simpa [joinAbs] using h'
          obtain ⟨hst, hwp⟩ := sep_prefix_split s t w _
            (hc s (List.mem_cons_self _ _)).2 (ha t (List.mem_cons_self _ _)).2 h''
          have hrec : (joinAbs c' ++ ['/']) <+: joinAbs (t2 :: a'') := by
            rw [hw]
            simp only [joinAbs]
            exact List.cons_prefix_cons.mpr ⟨rfl, hwp⟩
          obtain ⟨d, hd, hEq⟩ := (ih (t2 :: a'')
            (fun x hx => hc x (List.mem_cons_of_mem _ hx))
            (fun x hx => ha x (List.mem_cons_of_mem _ hx))).mp hrec
          refine ⟨d, hd, ?_⟩
          rw [hst] at *
          rw [hEq]
          rfl
    · rintro ⟨d, hd, hEq⟩
      rw [hEq, joinAbs_append]
      cases d with
      | nil => exact absurd rfl hd
      | cons e d' =>
        refine ⟨e ++ joinAbs d', ?_⟩
        simp [joinAbs]

theorem joinAbs_inj :
    ∀ (a b : List Str), (∀ s ∈ a, GoodSeg s) → (∀ s ∈ b, GoodSeg s) →
      joinAbs a = joinAbs b → a = b := by
  intro a
  induction a with
  | nil =>
    intro b _ _ h
    exact ((joinAbs_eq_nil b).mp (by simpa [joinAbs] using h.symm)).symm
  | cons s a' ih =>
    intro b ha hb h
    cases b with
    | nil =>
      exact absurd h (by simp [joinAbs])
    | cons t b' =>
      simp only [joinAbs, List.cons.injEq, true_and] at h
      have hs := ha s (List.mem_cons_self _ _)
      have htg := hb t (List.mem_cons_self _ _)
      rcases a' with _ | ⟨x, a''⟩
      · rcases b' with _ | ⟨y, b''⟩
        · simp only [joinAbs, List.append_nil] at h
          rw [h]
        · exfalso
          simp only [joinAbs, List.append_nil] at h
          exact hs.2 (by rw [h]; simp)
      · rcases b' with _ | ⟨y, b''⟩
        · exfalso
          simp only [joinAbs, List.append_nil] at h
          exact htg.2 (by rw [← h]; simp)
        · simp only [joinAbs] at h
          obtain ⟨hst, _⟩ := sep_prefix_split s t (x ++ joinAbs a'') (y ++ joinAbs b'')
            hs.2 htg.2 ⟨[], by simp [h]⟩
          subst hst
          have h3 := List.append_cancel_left h
          have h4 : joinAbs (x :: a'') = joinAbs (y :: b'') := by
            simp only [joinAbs]
            exact h3
          have h5 := ih (y :: b'') (fun z hz => ha z (List.mem_cons_of_mem _ hz))
            (fun z hz => hb z (List.mem_cons_of_mem _ hz)) h4
          rw [h5]

theorem isPrefixB_iff {α : Type} [DecidableEq α] :
    ∀ (pre l : List α), isPrefixB pre l = true ↔ pre <+: l := by
  intro pre
  induction pre with
  | nil =>
    intro l
    constructor
    · intro _
      exact ⟨l, rfl⟩
    · intro _
      rfl
  | cons x xs ih =>
    intro l
    cases l with
    | nil =>
      constructor
      · intro h
        exact absurd h (by simp [isPrefixB])
      · intro h
        obtain ⟨w, hw⟩ := h
        cases hw
    | cons y ys =>
      by_cases hxy : x = y
      · subst hxy
        have hstep : isPrefixB (x :: xs) (x :: ys) = isPrefixB xs ys := by
          simp [isPrefixB]
        rw [hstep, ih ys]
        constructor
        · intro h
          exact List.cons_prefix_cons.mpr ⟨rfl, h⟩
        · intro h
          exact (List.cons_prefix_cons.mp h).2
      · have hstep : isPrefixB (x :: xs) (y :: ys) = false := by
          simp [isPrefixB, hxy]
        rw [hstep]
        constructor
        · intro h
          exact absurd h (by simp)
        · intro h
          exact absurd (List.cons_prefix_cons.mp h).1 hxy

theorem sandbox_accept_iff (c r : List Str) (hc : ∀ s ∈ c, GoodSeg s) (hr : ∀ s ∈ r, GoodSeg s)
    (hne : c ≠ []) :
    (isPrefixB (absString c ++ ['/']) (absString r) = true ∨ absString r = absString c) ↔
      c <+: r := by
  rw [isPrefixB_iff]
  cases r with
  | nil =>
    constructor
    · intro h
      exfalso
      rcases c with _ | ⟨s, c'⟩
      · exact hne rfl
      · have hsG := hc s (List.mem_cons_self _ _)
        rcases h with h | h
        · obtain ⟨w, hw⟩ := h
          simp [absString, joinAbs] at hw
        · simp [absString, joinAbs] at h
          exact hsG.1 h.1
    · intro h
      exfalso
      obtain ⟨w, hw⟩ := h
      exact hne (List.append_eq_nil.mp hw).1
  | cons t r' =>
    have habsr : absString (t :: r') = joinAbs (t :: r') := by simp [absString]
    have habsc : absString c = joinAbs c := by simp [absString, hne]
    rw [habsr, habsc]
    rw [joinAbs_sep_prefix_iff c (t :: r') hc hr]
    constructor
    · intro h
      rcases h with ⟨d, _, hEq⟩ | h
      · exact ⟨d, hEq.symm⟩
      · have h2 := joinAbs_inj (t :: r') c hr hc h
        exact ⟨[], by rw [List.append_nil]; exact h2.symm⟩
    · intro h
      obtain ⟨d, hd⟩ := h
      cases d with
      | nil =>
        right
        rw [← hd]
        simp
      | cons e d' =>
        left
        exact ⟨e :: d', by simp, hd.symm⟩

/-- C1: for every absolute root directory whose canonical form is not the
filesystem root, `resolveProjectPath` returns the fully resolved absolute
path exactly when the resolved path's segments extend the canonical root's
segments (equal to the root or strictly nested under it, which covers
filenames that merely start with `..`), and throws `InvalidPathError` for
every path that resolves outside the root, after normalizing both `/` and
`\` separators. -/
theorem resolveProjectPath_sandbox (rootDir rel : Str)
    (_hroot : rootDir.head? = some '/')
    (hne : canonSegs rootDir ≠ []) :
    ((canonSegs rootDir <+: resolveSegs rootDir (toPosixPath rel)) →
       resolveProjectPath rootDir rel =
         .ok (absString (resolveSegs rootDir (toPosixPath rel)))) ∧
    (¬ (canonSegs rootDir <+: resolveSegs rootDir (toPosixPath rel)) →
       resolveProjectPath rootDir rel = .error .invalidPathError) := by
  have hr := resolveSegs_good rootDir (toPosixPath rel)
  have hcg := canonSegs_good rootDir
  have hiff := sandbox_accept_iff (canonSegs rootDir) (resolveSegs rootDir (toPosixPath rel))
    hcg hr hne
  constructor
  · intro h
    have h2 := hiff.mpr h
    show (if ¬ (isPrefixB (absString (canonSegs rootDir) ++ ['/'])
                  (absString (resolveSegs rootDir (toPosixPath rel))) = true) ∧
             ¬ (absString (resolveSegs rootDir (toPosixPath rel)) = absString (canonSegs rootDir))
          then (.error .invalidPathError : Except FileEngineError Str)
          else .ok (absString (resolveSegs rootDir (toPosixPath rel)))) =
         .ok (absString (resolveSegs rootDir (toPosixPath rel)))
    rw [if_neg]
    intro hcontra
    rcases h2 with h2 | h2
    · exact hcontra.1 h2
    · exact hcontra.2 h2
  · intro h
    have h2 : ¬ (isPrefixB (absString (canonSegs rootDir) ++ ['/'])
                   (absString (resolveSegs rootDir (toPosixPath rel))) = true ∨
                 absString (resolveSegs rootDir (toPosixPath rel)) =
                   absString (canonSegs rootDir)) :=
      fun hcontra => h (hiff.mp hcontra)
    show (if ¬ (isPrefixB (absString (canonSegs rootDir) ++ ['/'])
                  (absString (resolveSegs rootDir (toPosixPath rel))) = true) ∧
             ¬ (absString (resolveSegs rootDir (toPosixPath rel)) = absString (canonSegs rootDir))
          then (.error .invalidPathError : Except FileEngineError Str)
          else .ok (absString (resolveSegs rootDir (toPosixPath rel)))) =
         .error .invalidPathError
    rw [if_pos]
    exact ⟨fun hP => h2 (Or.inl hP), fun hQ => h2 (Or.inr hQ)⟩

/-- Witness for C1: root `/proj` and the relative path `..file.txt` (a
filename that merely starts with `..`), which resolves inside the root and
is accepted as `/proj/..file.txt`. -/
theorem resolveProjectPath_sandbox_witness :
    ("/proj".data.head? = some '/') ∧
    (canonSegs "/proj".data ≠ []) ∧
    (((canonSegs "/proj".data <+: resolveSegs "/proj".data (toPosixPath "..file.txt".data)) →
        resolveProjectPath "/proj".data "..file.txt".data =
          .ok (absString (resolveSegs "/proj".data (toPosixPath "..file.txt".data)))) ∧
     (¬ (canonSegs "/proj".data <+: resolveSegs "/proj".data (toPosixPath "..file.txt".data)) →
        resolveProjectPath "/proj".data "..file.txt".data = .error .invalidPathError)) :=
  ⟨by decide, by decide,
    resolveProjectPath_sandbox "/proj".data "..file.txt".data (by decide) (by decide)⟩

/-! ## Spec-side projections of the engine

The summary component of the engine's output never inspects the
filesystem; these definitions compute it (and the observer events) from
the change list and the options alone, and the bridge lemmas below prove
the engine agrees with them. -/

/-- The `FileOperationResult` of a single change, computed without the
filesystem state. -/
def specOp (change : AgentFileChange) (rootDir : Str) (dryRun : Bool) :
    Except FileEngineError FileOperationResult :=
  match resolveProjectPath rootDir change.path with
  | .error e => .error e
  | .ok _ =>
    if change.action = "create".data ∨ change.action = "update".data then
      match change.content with
      | none =>
        .ok { change := change, status := .skipped,
              message := some "Missing content for create/update action.".data }
      | some _ =>
        .ok { change := change,
              status := if change.action = "create".data then .created else .updated,
              message := some (if dryRun then "Dry-run: file would be written.".data
                               else "File written successfully.".data) }
    else if change.action = "delete".data then
      .ok { change := change, status := .deleted,
            message := some (if dryRun then "Dry-run: file would be deleted.".data
                             else "File deleted (or already absent).".data) }
    else
      .ok { change := change, status := .skipped,
            message := some "No action (noop).".data }

/-- The operation results of a whole change list, filesystem-free. -/
def specOps (files : List AgentFileChange) (rootDir : Str) (dryRun : Bool) :
    Except FileEngineError (List FileOperationResult) :=
  match files with
  | [] => .ok []
  | c :: rest =>
    match specOp c rootDir dryRun with
    | .error e => .error e
    | .ok op =>
      match specOps rest rootDir dryRun with
      | .error e => .error e
      | .ok ops => .ok (op :: ops)

/-- The summary of a whole change list, filesystem-free. -/
def specSummary (files : List AgentFileChange) (rootDir : Str) (dryRun : Bool) :
    Except FileEngineError ApplyAgentResultSummary :=
  (specOps files rootDir dryRun).map
    (fun ops => { operations := ops, dryRun := dryRun, counts := tallyCounts ops })

/-- The observer event a change emits when the batch succeeds: none for a
create/update with absent content (the early-return branch skips the
logger call), one descriptive string otherwise. -/
def eventFor (change : AgentFileChange) : Option Str :=
  if change.action = "create".data ∨ change.action = "update".data then
    match change.content with
    | none => none
    | some _ => some (upperStr change.action ++ ": ".data ++ change.path)
  else if change.action = "delete".data then
    some ("DELETE: ".data ++ change.path)
  else
    some ("SKIP (noop): ".data ++ change.path)

/-- All observer events of a successful batch, in input order. -/
def expectedEvents (files : List AgentFileChange) : List Str :=
  files.filterMap eventFor

/-! ## Engine lemmas -/

theorem resolveProjectPath_error_invalid {rootDir p : Str} {e : FileEngineError}
    (h : resolveProjectPath rootDir p = .error e) : e = .invalidPathError := by
  simp only [resolveProjectPath] at h
  split at h
  · injection h with h2
    exact h2.symm
  · simp at h

theorem writeFileSafe_eq (p cont : Str) (fs : FS) :
    writeFileSafe p cont fs =
      .ok { ensureDirectoryExists p fs with
            files := setFile p cont (ensureDirectoryExists p fs).files } := rfl

theorem unlink_not_other (p : Str) (fs : FS) : (unlink p fs).1 ≠ .otherError := by
  unfold unlink
  split <;> simp

theorem deleteFileSafe_eq (p : Str) (fs : FS) :
    deleteFileSafe p fs = .ok (unlink p fs).2 := by
  unfold deleteFileSafe
  have h := unlink_not_other p fs
  rcases hu : unlink p fs with ⟨res, fs1⟩
  rw [hu] at h
  cases res with
  | ok => simp [deleteFileSafeOutcome, Except.map]
  | enoent => simp [deleteFileSafeOutcome, Except.map]
  | otherError => exact absurd rfl h

theorem applySingleChange_fst (change : AgentFileChange) (rootDir : Str) (dryRun : Bool)
    (fs : FS) :
    (applySingleChange change rootDir dryRun fs).map (fun x => x.1) =
      specOp change rootDir dryRun := by
  unfold applySingleChange specOp
  cases hres : resolveProjectPath rootDir change.path with
  | error e => simp [Except.map]
  | ok tp =>
    dsimp only
    by_cases hact : change.action = "create".data ∨ change.action = "update".data
    · rw [if_pos hact, if_pos hact]
      cases hcont : change.content with
      | none => simp [Except.map]
      | some cont =>
        cases hdry : dryRun with
        | true => simp [Except.map]
        | false => simp [writeFileSafe_eq, Except.map]
    · rw [if_neg hact, if_neg hact]
      by_cases hdel : change.action = "delete".data
      · rw [if_pos hdel, if_pos hdel]
        cases hdry : dryRun with
        | true => simp [Except.map]
        | false => simp [deleteFileSafe_eq, Except.map]
      · rw [if_neg hdel, if_neg hdel]
        simp [Except.map]

/-- The filesystem state after one change (in the success case): identical
to the input state in dry-run mode and for skips, otherwise the write or
unlink effect. -/
def nextFS (change : AgentFileChange) (rootDir : Str) (dryRun : Bool) (fs : FS) : FS :=
  match resolveProjectPath rootDir change.path with
  | .error _ => fs
  | .ok targetPath =>
    if change.action = "create".data ∨ change.action = "update".data then
      match change.content with
      | none => fs
      | some content =>
        if dryRun then fs
        else { ensureDirectoryExists targetPath fs with
               files := setFile targetPath content (ensureDirectoryExists targetPath fs).files }
    else if change.action = "delete".data then
      if dryRun then fs else (unlink targetPath fs).2
    else fs

/-- Full characterization of `applySingleChange`: the result is the
filesystem-free `specOp`, the state is `nextFS`, and the events are
exactly `eventFor` (empty for the missing-content skip). -/
theorem applySingleChange_eq (change : AgentFileChange) (rootDir : Str) (dryRun : Bool)
    (fs : FS) :
    applySingleChange change rootDir dryRun fs =
      (specOp change rootDir dryRun).map
        (fun op => (op, nextFS change rootDir dryRun fs, (eventFor change).toList)) := by
  unfold applySingleChange specOp nextFS eventFor
  cases hres : resolveProjectPath rootDir change.path with
  | error e => simp [Except.map]
  | ok tp =>
    dsimp only
    by_cases hact : change.action = "create".data ∨ change.action = "update".data
    · rw [if_pos hact, if_pos hact, if_pos hact, if_pos hact]
      cases hcont : change.content with
      | none => simp [Except.map]
      | some cont =>
        cases hdry : dryRun with
        | true => simp [Except.map]
        | false => simp [writeFileSafe_eq, Except.map]
    · rw [if_neg hact, if_neg hact, if_neg hact, if_neg hact]
      by_cases hdel : change.action = "delete".data
      · rw [if_pos hdel, if_pos hdel, if_pos hdel, if_pos hdel]
        cases hdry : dryRun with
        | true => simp [Except.map]
        | false => simp [deleteFileSafe_eq, Except.map]
      · rw [if_neg hdel, if_neg hdel, if_neg hdel, if_neg hdel]
        simp [Except.map]

theorem specOp_isOk {change : AgentFileChange} {rootDir : Str} (dryRun : Bool) {p : Str}
    (hres : resolveProjectPath rootDir change.path = .ok p) :
    ∃ op, specOp change rootDir dryRun = .ok op := by
  unfold specOp
  rw [hres]
  dsimp only
  split
  · cases change.content
    · exact ⟨_, rfl⟩
    · exact ⟨_, rfl⟩
  · split
    · exact ⟨_, rfl⟩
    · exact ⟨_, rfl⟩

theorem specOp_error_resolve {change : AgentFileChange} {rootDir : Str} {dryRun : Bool}
    {e : FileEngineError} (h : specOp change rootDir dryRun = .error e) :
    resolveProjectPath rootDir change.path = .error e := by
  cases hres : resolveProjectPath rootDir change.path with
  | error e' =>
    unfold specOp at h
    rw [hres] at h
    injection h with h2
    rw [h2]
  | ok tp =>
    obtain ⟨op, hop⟩ := specOp_isOk dryRun hres
    rw [hop] at h
    cases h

theorem applySingleChange_error_of_resolve {change : AgentFileChange} {rootDir : Str}
    {dryRun : Bool} {fs : FS} {e : FileEngineError}
    (hres : resolveProjectPath rootDir change.path = .error e) :
    applySingleChange change rootDir dryRun fs = .error e := by
  rw [applySingleChange_eq]
  unfold specOp
  rw [hres]
  rfl

theorem applySingleChange_isOk {change : AgentFileChange} {rootDir : Str} (fs : FS)
    (dryRun : Bool) {p : Str}
    (hres : resolveProjectPath rootDir change.path = .ok p) :
    ∃ op, applySingleChange change rootDir dryRun fs =
      .ok (op, nextFS change rootDir dryRun fs, (eventFor change).toList) := by
  obtain ⟨op, hop⟩ := specOp_isOk dryRun hres
  refine ⟨op, ?_⟩
  rw [applySingleChange_eq, hop]
  rfl

theorem applyChanges_fst (files : List AgentFileChange) (rootDir : Str) (dryRun : Bool)
    (fs : FS) :
    (applyChanges files rootDir dryRun fs).map (fun x => x.1) = specOps files rootDir dryRun := by
  induction files generalizing fs with
  | nil => rfl
  | cons c rest ih =>
    unfold applyChanges specOps
    rw [applySingleChange_eq]
    cases hop : specOp c rootDir dryRun with
    | error e => rfl
    | ok op =>
      dsimp only [Except.map]
      have hrec := ih (nextFS c rootDir dryRun fs)
      cases h2 : applyChanges rest rootDir dryRun (nextFS c rootDir dryRun fs) with
      | error e =>
        rw [h2] at hrec
        rw [← hrec]
        rfl
      | ok out2 =>
        rcases out2 with ⟨ops, fs2, evs2⟩
        rw [h2] at hrec
        rw [← hrec]
        rfl

theorem applyAgentResult_fst (files : List AgentFileChange) (rootDir : Str) (dryRun : Bool)
    (fs : FS) :
    (applyAgentResult files rootDir dryRun fs).map (fun x => x.1) =
      specSummary files rootDir dryRun := by
  unfold applyAgentResult specSummary
  have hb := applyChanges_fst files rootDir dryRun fs
  cases h : applyChanges files rootDir dryRun fs with
  | error e =>
    rw [h] at hb
    rw [← hb]
    rfl
  | ok out =>
    rcases out with ⟨ops, fs1, evs⟩
    rw [h] at hb
    rw [← hb]
    rfl

theorem nextFS_dry (change : AgentFileChange) (rootDir : Str) (fs : FS) :
    nextFS change rootDir true fs = fs := by
  unfold nextFS
  cases resolveProjectPath rootDir change.path with
  | error e => rfl
  | ok tp =>
    dsimp only
    split
    · cases change.content
      · rfl
      · simp
    · split
      · simp
      · rfl

theorem applyChanges_dry_frame :
    ∀ (files : List AgentFileChange) (rootDir : Str) (fs : FS)
      (out : List FileOperationResult × FS × List Str),
      applyChanges files rootDir true fs = .ok out → out.2.1 = fs := by
  intro files
  induction files with
  | nil =>
    intro rootDir fs out h
    injection h with h2
    rw [← h2]
  | cons c rest ih =>
    intro rootDir fs out h
    unfold applyChanges at h
    rw [applySingleChange_eq] at h
    cases hop : specOp c rootDir true with
    | error e =>
      rw [hop] at h
      cases h
    | ok op =>
      rw [hop] at h
      dsimp only [Except.map] at h
      cases h2 : applyChanges rest rootDir true (nextFS c rootDir true fs) with
      | error e =>
        rw [h2] at h
        cases h
      | ok out2 =>
        rcases out2 with ⟨ops, fs2, evs2⟩
        rw [h2] at h
        dsimp only at h
        injection h with h3
        have hfs2 := ih rootDir (nextFS c rootDir true fs) (ops, fs2, evs2) h2
        dsimp only at hfs2
        rw [← h3]
        dsimp only
        rw [hfs2, nextFS_dry]

theorem applyChanges_events :
    ∀ (files : List AgentFileChange) (rootDir : Str) (dryRun : Bool) (fs : FS)
      (out : List FileOperationResult × FS × List Str),
      applyChanges files rootDir dryRun fs = .ok out → out.2.2 = expectedEvents files := by
  intro files
  induction files with
  | nil =>
    intro rootDir dryRun fs out h
    injection h with h2
    rw [← h2]
    rfl
  | cons c rest ih =>
    intro rootDir dryRun fs out h
    unfold applyChanges at h
    rw [applySingleChange_eq] at h
    cases hop : specOp c rootDir dryRun with
    | error e =>
      rw [hop] at h
      cases h
    | ok op =>
      rw [hop] at h
      dsimp only [Except.map] at h
      cases h2 : applyChanges rest rootDir dryRun (nextFS c rootDir dryRun fs) with
      | error e =>
        rw [h2] at h
        cases h
      | ok out2 =>
        rcases out2 with ⟨ops, fs2, evs2⟩
        rw [h2] at h
        dsimp only at h
        injection h with h3
        have hevs2 := ih rootDir dryRun (nextFS c rootDir dryRun fs) _ h2
        dsimp only at hevs2
        rw [← h3]
        dsimp only
        rw [hevs2]
        unfold expectedEvents
        rw [List.filterMap_cons]
        cases eventFor c <;> rfl

theorem specOp_change {change : AgentFileChange} {rootDir : Str} {dryRun : Bool}
    {op : FileOperationResult} (h : specOp change rootDir dryRun = .ok op) :
    op.change = change := by
  unfold specOp at h
  cases hres : resolveProjectPath rootDir change.path with
  | error e =>
    rw [hres] at h
    cases h
  | ok tp =>
    rw [hres] at h
    dsimp only at h
    split at h
    · cases hcont : change.content with
      | none =>
        rw [hcont] at h
        injection h with h2
        rw [← h2]
      | some cont =>
        rw [hcont] at h
        injection h with h2
        rw [← h2]
    · split at h
      · injection h with h2
        rw [← h2]
      · injection h with h2
        rw [← h2]

theorem specOps_map_change :
    ∀ (files : List AgentFileChange) (rootDir : Str) (dryRun : Bool)
      (ops : List FileOperationResult),
      specOps files rootDir dryRun = .ok ops → ops.map (fun op => op.change) = files := by
  intro files
  induction files with
  | nil =>
    intro rootDir dryRun ops h
    injection h with h2
    rw [← h2]
    rfl
  | cons c rest ih =>
    intro rootDir dryRun ops h
    unfold specOps at h
    cases hop : specOp c rootDir dryRun with
    | error e =>
      rw [hop] at h
      cases h
    | ok op =>
      rw [hop] at h
      cases h2 : specOps rest rootDir dryRun with
      | error e =>
        rw [h2] at h
        cases h
      | ok ops2 =>
        rw [h2] at h
        dsimp only at h
        injection h with h3
        rw [← h3]
        rw [List.map_cons]
        rw [specOp_change hop, ih rootDir dryRun ops2 h2]

theorem specOp_status_mode (change : AgentFileChange) (rootDir : Str) :
    (specOp change rootDir true).map (fun r => r.status) =
      (specOp change rootDir false).map (fun r => r.status) := by
  unfold specOp
  cases resolveProjectPath rootDir change.path with
  | error e => rfl
  | ok tp =>
    dsimp only
    split
    · cases change.content
      · rfl
      · rfl
    · split
      · rfl
      · rfl

theorem specOps_status_mode :
    ∀ (files : List AgentFileChange) (rootDir : Str),
      (specOps files rootDir true).map (List.map (fun r => r.status)) =
        (specOps files rootDir false).map (List.map (fun r => r.status)) := by
  intro files
  induction files with
  | nil => intro rootDir; rfl
  | cons c rest ih =>
    intro rootDir
    unfold specOps
    have h1 := specOp_status_mode c rootDir
    have h3 := ih rootDir
    cases ht : specOp c rootDir true with
    | error e =>
      cases hf : specOp c rootDir false with
      | error e' =>
        rw [ht, hf] at h1
        injection h1 with h2
        rw [h2]
      | ok opf =>
        rw [ht, hf] at h1
        cases h1
    | ok opt =>
      cases hf : specOp c rootDir false with
      | error e =>
        rw [ht, hf] at h1
        cases h1
      | ok opf =>
        rw [ht, hf] at h1
        dsimp only [Except.map] at h1
        injection h1 with h2
        cases h2t : specOps rest rootDir true with
        | error e =>
          cases h2f : specOps rest rootDir false with
          | error e' =>
            rw [h2t, h2f] at h3
            injection h3 with h4
            rw [h4]
          | ok ops2 =>
            rw [h2t, h2f] at h3
            cases h3
        | ok ops1 =>
          cases h2f : specOps rest rootDir false with
          | error e =>
            rw [h2t, h2f] at h3
            cases h3
          | ok ops2 =>
            rw [h2t, h2f] at h3
            dsimp only [Except.map] at h3
            injection h3 with h4
            dsimp only [Except.map]
            rw [List.map_cons, List.map_cons, h2, h4]

theorem applyAgentResult_ok_elim {files : List AgentFileChange} {rootDir : Str}
    {dryRun : Bool} {fs : FS} {s : ApplyAgentResultSummary} {fs' : FS} {evs : List Str}
    (h : applyAgentResult files rootDir dryRun fs = .ok (s, fs', evs)) :
    applyChanges files rootDir dryRun fs = .ok (s.operations, fs', evs) ∧
      s.dryRun = dryRun ∧ s.counts = tallyCounts s.operations := by
  unfold applyAgentResult at h
  cases h1 : applyChanges files rootDir dryRun fs with
  | error e =>
    rw [h1] at h
    cases h
  | ok out =>
    rcases out with ⟨ops, fs1, evs1⟩
    rw [h1] at h
    dsimp only at h
    injection h with h2
    have h3 := congrArg Prod.fst h2
    have h4 := congrArg (fun x => x.2.1) h2
    have h5 := congrArg (fun x => x.2.2) h2
    dsimp only at h3 h4 h5
    refine ⟨?_, ?_, ?_⟩
    · rw [← h3, ← h4, ← h5]
    · rw [← h3]
    · rw [← h3]

theorem foldl_countStep_spec :
    ∀ (ops : List FileOperationResult) (acc : Counts),
      ops.foldl countStep acc =
        ⟨acc.created + ops.countP (fun op => decide (op.status = .created)),
         acc.updated + ops.countP (fun op => decide (op.status = .updated)),
         acc.deleted + ops.countP (fun op => decide (op.status = .deleted)),
         acc.skipped + ops.countP (fun op => decide (op.status = .skipped))⟩ := by
  intro ops
  induction ops with
  | nil =>
    intro acc
    cases acc
    simp
  | cons op rest ih =>
    intro acc
    rw [List.foldl_cons, ih]
    cases hst : op.status <;>
      simp [countStep, hst, List.countP_cons, Counts.mk.injEq] <;> omega

theorem tallyCounts_spec (ops : List FileOperationResult) :
    tallyCounts ops =
      ⟨ops.countP (fun op => decide (op.status = .created)),
       ops.countP (fun op => decide (op.status = .updated)),
       ops.countP (fun op => decide (op.status = .deleted)),
       ops.countP (fun op => decide (op.status = .skipped))⟩ := by
  unfold tallyCounts
  rw [foldl_countStep_spec]
  simp

theorem countP_status_sum (ops : List FileOperationResult) :
    ops.countP (fun op => decide (op.status = .created)) +
      ops.countP (fun op => decide (op.status = .updated)) +
      ops.countP (fun op => decide (op.status = .deleted)) +
      ops.countP (fun op => decide (op.status = .skipped)) = ops.length := by
  induction ops with
  | nil => rfl
  | cons op rest ih =>
    cases hst : op.status <;> simp [List.countP_cons, hst] <;> omega

theorem unlink_noFile (p : Str) (fs : FS) :
    ¬ ((unlink p fs).2.files.any (fun e => e.1 = p) = true) := by
  unfold unlink
  by_cases h : fs.files.any (fun e => decide (e.1 = p)) = true
  · rw [if_pos h]
    dsimp only
    intro hcontra
    rw [List.any_eq_true] at hcontra
    obtain ⟨x, hx, hpx⟩ := hcontra
    rw [List.mem_filter] at hx
    have h2 := hx.2
    simp at h2 hpx
    exact h2 hpx
  · rw [if_neg h]
    exact h

theorem unlink_idem (p : Str) (fs1 : FS)
    (h : ¬ (fs1.files.any (fun e => e.1 = p) = true)) :
    (unlink p fs1).2 = fs1 := by
  unfold unlink
  rw [if_neg h]

theorem eventFor_isSome {c : AgentFileChange}
    (h : (c.action = "create".data ∨ c.action = "update".data) → c.content ≠ none) :
    eventFor c ≠ none := by
  unfold eventFor
  split
  · rename_i hact
    cases hcont : c.content with
    | none => exact absurd hcont (h hact)
    | some v => simp
  · split <;> simp

theorem filterMap_length_eq {α β : Type} (f : α → Option β) :
    ∀ (l : List α), (∀ x ∈ l, f x ≠ none) → (l.filterMap f).length = l.length := by
  intro l
  induction l with
  | nil =>
    intro _
    rfl
  | cons a rest ih =>
    intro h
    rw [List.filterMap_cons]
    cases hf : f a with
    | none => exact absurd hf (h a (List.mem_cons_self _ _))
    | some b => simp [ih (fun x hx => h x (List.mem_cons_of_mem _ hx))]

/-! ## Claims -/

/-- C2: if any change in the list has a path that resolves outside the
sandbox root, `applyAgentResult` throws `InvalidPathError` and returns no
summary at all — no partial summary with results for earlier changes is
ever produced, even if those earlier changes succeeded. -/
theorem invalidPath_aborts_batch (files : List AgentFileChange) (rootDir : Str)
    (dryRun : Bool) (fs : FS) (c : AgentFileChange) (hc : c ∈ files)
    (hbad : resolveProjectPath rootDir c.path = .error .invalidPathError) :
    applyAgentResult files rootDir dryRun fs = .error .invalidPathError := by
  have key : ∀ (fl : List AgentFileChange) (fsx : FS), c ∈ fl →
      applyChanges fl rootDir dryRun fsx = .error .invalidPathError := by
    intro fl
    induction fl with
    | nil =>
      intro fsx hmem
      cases hmem
    | cons c0 rest ih =>
      intro fsx hmem
      unfold applyChanges
      cases hres : resolveProjectPath rootDir c0.path with
      | error e =>
        have he := resolveProjectPath_error_invalid hres
        rw [applySingleChange_error_of_resolve hres, he]
      | ok p =>
        obtain ⟨op, hop⟩ := applySingleChange_isOk fsx dryRun hres
        rw [hop]
        dsimp only
        rcases List.mem_cons.mp hmem with h1 | h1
        · rw [h1] at hbad
          rw [hres] at hbad
          cases hbad
        · rw [ih (nextFS c0 rootDir dryRun fsx) h1]
  unfold applyAgentResult
  rw [key files fs hc]

/-- Witness for C2: a batch whose first change succeeds and whose second
change escapes the root; the whole apply call errors. -/
theorem invalidPath_aborts_batch_witness :
    ((⟨"../outside.txt".data, "create".data, some "x".data⟩ : AgentFileChange) ∈
       [(⟨"a.txt".data, "create".data, some "hi".data⟩ : AgentFileChange),
        ⟨"../outside.txt".data, "create".data, some "x".data⟩]) ∧
    (resolveProjectPath "/proj".data "../outside.txt".data = .error .invalidPathError) ∧
    applyAgentResult
        [⟨"a.txt".data, "create".data, some "hi".data⟩,
         ⟨"../outside.txt".data, "create".data, some "x".data⟩]
        "/proj".data false ⟨[], []⟩ = .error .invalidPathError :=
  ⟨by decide, by decide,
    invalidPath_aborts_batch
      [⟨"a.txt".data, "create".data, some "hi".data⟩,
       ⟨"../outside.txt".data, "create".data, some "x".data⟩]
      "/proj".data false ⟨[], []⟩
      ⟨"../outside.txt".data, "create".data, some "x".data⟩ (by decide) (by decide)⟩

/-- C3: whenever `applyAgentResult` returns a summary, the operations list
has exactly one result per input change, in input order, each echoing the
original change, and the four counts tally the statuses so that their sum
equals the number of operations and the number of input changes. -/
theorem summary_accounting {files : List AgentFileChange} {rootDir : Str} {dryRun : Bool}
    {fs : FS} {s : ApplyAgentResultSummary} {fs' : FS} {evs : List Str}
    (h : applyAgentResult files rootDir dryRun fs = .ok (s, fs', evs)) :
    s.operations.map (fun op => op.change) = files ∧
    s.operations.length = files.length ∧
    s.counts.created = s.operations.countP (fun op => decide (op.status = .created)) ∧
    s.counts.updated = s.operations.countP (fun op => decide (op.status = .updated)) ∧
    s.counts.deleted = s.operations.countP (fun op => decide (op.status = .deleted)) ∧
    s.counts.skipped = s.operations.countP (fun op => decide (op.status = .skipped)) ∧
    s.counts.created + s.counts.updated + s.counts.deleted + s.counts.skipped =
      s.operations.length := by
  have hfst := applyAgentResult_fst files rootDir dryRun fs
  rw [h] at hfst
  dsimp only [Except.map] at hfst
  unfold specSummary at hfst
  cases hops : specOps files rootDir dryRun with
  | error e =>
    rw [hops] at hfst
    cases hfst
  | ok ops =>
    rw [hops] at hfst
    dsimp only [Except.map] at hfst
    injection hfst with h2
    have hchange := specOps_map_change files rootDir dryRun ops hops
    rw [h2]
    dsimp only
    refine ⟨hchange, ?_, ?_, ?_, ?_, ?_, ?_⟩
    · rw [← hchange, List.length_map]
    · rw [tallyCounts_spec]
    · rw [tallyCounts_spec]
    · rw [tallyCounts_spec]
    · rw [tallyCounts_spec]
    · rw [tallyCounts_spec]
      exact countP_status_sum ops

/-- Concrete change list for the C3 witness: `create a.txt` then
`delete a.txt`. -/
def c3files : List AgentFileChange :=
  [⟨"a.txt".data, "create".data, some "hi".data⟩, ⟨"a.txt".data, "delete".data, none⟩]

/-- The summary the engine returns for `c3files` in write mode. -/
def c3summary : ApplyAgentResultSummary :=
  ⟨[⟨⟨"a.txt".data, "create".data, some "hi".data⟩, .created,
     some "File written successfully.".data⟩,
    ⟨⟨"a.txt".data, "delete".data, none⟩, .deleted,
     some "File deleted (or already absent).".data⟩],
   false, ⟨1, 0, 1, 0⟩⟩

/-- Witness for C3: the write-mode batch `create a.txt` then `delete
a.txt` yields two operations with counts created 1 and deleted 1. -/
theorem summary_accounting_witness :
    (applyAgentResult c3files "/proj".data false ⟨[], []⟩ =
       .ok (c3summary, ⟨[], ["/proj".data]⟩, ["CREATE: a.txt".data, "DELETE: a.txt".data])) ∧
    (c3summary.operations.map (fun op => op.change) = c3files ∧
     c3summary.operations.length = c3files.length ∧
     c3summary.counts.created =
       c3summary.operations.countP (fun op => decide (op.status = .created)) ∧
     c3summary.counts.updated =
       c3summary.operations.countP (fun op => decide (op.status = .updated)) ∧
     c3summary.counts.deleted =
       c3summary.operations.countP (fun op => decide (op.status = .deleted)) ∧
     c3summary.counts.skipped =
       c3summary.operations.countP (fun op => decide (op.status = .skipped)) ∧
     c3summary.counts.created + c3summary.counts.updated + c3summary.counts.deleted +
       c3summary.counts.skipped = c3summary.operations.length) := by
  have h : applyAgentResult c3files "/proj".data false ⟨[], []⟩ =
      .ok (c3summary, ⟨[], ["/proj".data]⟩, ["CREATE: a.txt".data, "DELETE: a.txt".data]) := by
    decide
  exact ⟨h, summary_accounting h⟩

/-- C4: for a single create or update change with content present (and an
in-sandbox path, without which neither mode reports any status), the status
reported in dry-run mode equals the status reported in write mode — against
arbitrary and possibly different filesystem states, so file existence is
irrelevant — and that status is determined by the requested action alone:
`created` for `create`, `updated` for `update`. -/
theorem createUpdate_status_parity (change : AgentFileChange) (rootDir : Str)
    (cont p : Str) (fs1 fs2 : FS)
    (hact : change.action = "create".data ∨ change.action = "update".data)
    (hcont : change.content = some cont)
    (hres : resolveProjectPath rootDir change.path = .ok p) :
    ∃ r1 rest1 r2 rest2,
      applySingleChange change rootDir true fs1 = .ok (r1, rest1) ∧
      applySingleChange change rootDir false fs2 = .ok (r2, rest2) ∧
      r1.status = r2.status ∧
      r1.status = (if change.action = "create".data then .created else .updated) := by
  rw [applySingleChange_eq, applySingleChange_eq]
  unfold specOp
  rw [hres]
  dsimp only
  rw [if_pos hact, if_pos hact, hcont]
  exact ⟨_, _, _, _, rfl, rfl, rfl, rfl⟩

/-- Witness for C4: an `update` of `a.txt` with content `hi` against two
different (empty) states; both modes report `updated`. -/
theorem createUpdate_status_parity_witness :
    ((("update".data : Str) = "create".data ∨ ("update".data : Str) = "update".data) ∧
     ((some "hi".data : Option Str) = some "hi".data) ∧
     resolveProjectPath "/proj".data "a.txt".data = .ok "/proj/a.txt".data) ∧
    (∃ r1 rest1 r2 rest2,
      applySingleChange ⟨"a.txt".data, "update".data, some "hi".data⟩ "/proj".data true
          ⟨[], []⟩ = .ok (r1, rest1) ∧
      applySingleChange ⟨"a.txt".data, "update".data, some "hi".data⟩ "/proj".data false
          ⟨[("/proj/a.txt".data, "old".data)], ["/proj".data]⟩ = .ok (r2, rest2) ∧
      r1.status = r2.status ∧
      r1.status =
        (if ("update".data : Str) = "create".data then .created else .updated)) :=
  ⟨⟨by decide, rfl, by decide⟩,
    createUpdate_status_parity ⟨"a.txt".data, "update".data, some "hi".data⟩ "/proj".data
      "hi".data "/proj/a.txt".data ⟨[], []⟩
      ⟨[("/proj/a.txt".data, "old".data)], ["/proj".data]⟩
      (by decide) rfl (by decide)⟩

/-- C5: in dry-run mode the engine performs no filesystem mutation — the
returned state equals the input state, so no file is written or deleted and
no directory is created — the summary's `dryRun` flag is `true`, and every
write-mode run over the same change list reports exactly the same statuses. -/
theorem dryRun_frame (files : List AgentFileChange) (rootDir : Str) (fs : FS)
    (s : ApplyAgentResultSummary) (fs' : FS) (evs : List Str)
    (h : applyAgentResult files rootDir true fs = .ok (s, fs', evs)) :
    fs' = fs ∧ s.dryRun = true ∧
      ∀ (fsw : FS) (sw : ApplyAgentResultSummary) (fsw' : FS) (evw : List Str),
        applyAgentResult files rootDir false fsw = .ok (sw, fsw', evw) →
        sw.operations.map (fun op => op.status) = s.operations.map (fun op => op.status) := by
  obtain ⟨hch, hdry, _⟩ := applyAgentResult_ok_elim h
  have hframe := applyChanges_dry_frame files rootDir fs (s.operations, fs', evs) hch
  dsimp only at hframe
  refine ⟨hframe, hdry, ?_⟩
  have hd := applyAgentResult_fst files rootDir true fs
  rw [h] at hd
  dsimp only [Except.map] at hd
  intro fsw sw fsw' evw hw
  have hwf := applyAgentResult_fst files rootDir false fsw
  rw [hw] at hwf
  dsimp only [Except.map] at hwf
  unfold specSummary at hd hwf
  cases ht : specOps files rootDir true with
  | error e =>
    rw [ht] at hd
    cases hd
  | ok ops1 =>
    rw [ht] at hd
    dsimp only [Except.map] at hd
    injection hd with hs1
    cases hf : specOps files rootDir false with
    | error e =>
      rw [hf] at hwf
      cases hwf
    | ok ops2 =>
      rw [hf] at hwf
      dsimp only [Except.map] at hwf
      injection hwf with hs2
      have hm := specOps_status_mode files rootDir
      rw [ht, hf] at hm
      dsimp only [Except.map] at hm
      injection hm with hm2
      rw [hs1, hs2]
      dsimp only
      exact hm2.symm

/-- Concrete change list for the C5 witness: a dry-run `create` of
`src/x.ts`. -/
def c5files : List AgentFileChange := [⟨"src/x.ts".data, "create".data, some "body".data⟩]

/-- The summary the engine returns for `c5files` in dry-run mode. -/
def c5summary : ApplyAgentResultSummary :=
  ⟨[⟨⟨"src/x.ts".data, "create".data, some "body".data⟩, .created,
     some "Dry-run: file would be written.".data⟩], true, ⟨1, 0, 0, 0⟩⟩

/-- Witness for C5: a dry-run `create` of `src/x.ts` against the empty root
reports `created` with `dryRun := true` and leaves the state unchanged — in
particular no `src` directory is created (the directory list stays empty). -/
theorem dryRun_frame_witness :
    (applyAgentResult c5files "/proj".data true ⟨[], []⟩ =
       .ok (c5summary, ⟨[], []⟩, ["CREATE: src/x.ts".data])) ∧
    ((⟨[], []⟩ : FS) = ⟨[], []⟩ ∧ c5summary.dryRun = true ∧
      ∀ (fsw : FS) (sw : ApplyAgentResultSummary) (fsw' : FS) (evw : List Str),
        applyAgentResult c5files "/proj".data false fsw = .ok (sw, fsw', evw) →
        sw.operations.map (fun op => op.status) =
          c5summary.operations.map (fun op => op.status)) := by
  have h : applyAgentResult c5files "/proj".data true ⟨[], []⟩ =
      .ok (c5summary, ⟨[], []⟩, ["CREATE: src/x.ts".data]) := by decide
  exact ⟨h, dryRun_frame c5files "/proj".data ⟨[], []⟩ c5summary ⟨[], []⟩
    ["CREATE: src/x.ts".data] h⟩

theorem applyChanges_cons (c : AgentFileChange) (rest : List AgentFileChange) (rootDir : Str)
    (dryRun : Bool) (fs : FS) (res : FileOperationResult) (fs1 : FS) (evs1 : List Str)
    (h : applySingleChange c rootDir dryRun fs = .ok (res, fs1, evs1)) :
    applyChanges (c :: rest) rootDir dryRun fs =
      (applyChanges rest rootDir dryRun fs1).map
        (fun out => (res :: out.1, out.2.1, evs1 ++ out.2.2)) := by
  have hstep : applyChanges (c :: rest) rootDir dryRun fs =
      match applySingleChange c rootDir dryRun fs with
      | .error e => .error e
      | .ok (op, fsx, evsx) =>
        match applyChanges rest rootDir dryRun fsx with
        | .error e => .error e
        | .ok (ops, fs2, evs2) => .ok (op :: ops, fs2, evsx ++ evs2) := rfl
  rw [hstep, h]
  dsimp only
  cases h2 : applyChanges rest rootDir dryRun fs1 with
  | error e => rfl
  | ok out =>
    rcases out with ⟨ops, fs2, evs2⟩
    rfl

/-- Counterexample for C6: a `create` change with absent content whose
path escapes the root is not recorded as `skipped` — the batch aborts with
`InvalidPathError`, because the path is resolved before the content
check. -/
theorem missingContent_skip_counterexample :
    applyAgentResult [⟨"../x".data, "create".data, none⟩] "/proj".data false ⟨[], []⟩ =
      .error .invalidPathError := by
  decide

/-- C6 (amended): for every create or update change whose content is
absent and whose path resolves inside the sandbox, the engine records
`skipped` with the missing-content message, leaves the filesystem state
untouched, and continues processing the subsequent changes — identically
in dry-run and write modes. -/
theorem missingContent_skip (change : AgentFileChange) (rest : List AgentFileChange)
    (rootDir : Str) (dryRun : Bool) (fs : FS) (p : Str)
    (hact : change.action = "create".data ∨ change.action = "update".data)
    (hcont : change.content = none)
    (hres : resolveProjectPath rootDir change.path = .ok p) :
    applySingleChange change rootDir dryRun fs =
      .ok ({ change := change, status := .skipped,
             message := some "Missing content for create/update action.".data }, fs, []) ∧
    applyChanges (change :: rest) rootDir dryRun fs =
      (applyChanges rest rootDir dryRun fs).map
        (fun out => ({ change := change, status := .skipped,
                       message := some "Missing content for create/update action.".data }
                       :: out.1, out.2.1, out.2.2)) := by
  have h1 : applySingleChange change rootDir dryRun fs =
      .ok ({ change := change, status := .skipped,
             message := some "Missing content for create/update action.".data }, fs, []) := by
    rw [applySingleChange_eq]
    unfold specOp nextFS eventFor
    rw [hres]
    dsimp only
    rw [if_pos hact, if_pos hact, if_pos hact, hcont]
    rfl
  refine ⟨h1, ?_⟩
  rw [applyChanges_cons change rest rootDir dryRun fs _ fs [] h1]
  cases h2 : applyChanges rest rootDir dryRun fs with
  | error e => rfl
  | ok out =>
    rcases out with ⟨ops, fs2, evs2⟩
    rfl

/-- Witness for C6 (amended): a contentless `create` of `a.txt` followed
by a `noop`; the skip is recorded and the `noop` is still processed. -/
theorem missingContent_skip_witness :
    ((("create".data : Str) = "create".data ∨ ("create".data : Str) = "update".data) ∧
     ((none : Option Str) = none) ∧
     resolveProjectPath "/proj".data "a.txt".data = .ok "/proj/a.txt".data) ∧
    (applySingleChange ⟨"a.txt".data, "create".data, none⟩ "/proj".data false ⟨[], []⟩ =
       .ok ({ change := ⟨"a.txt".data, "create".data, none⟩, status := .skipped,
              message := some "Missing content for create/update action.".data }, ⟨[], []⟩, []) ∧
     applyChanges [⟨"a.txt".data, "create".data, none⟩, ⟨"b.txt".data, "noop".data, none⟩]
         "/proj".data false ⟨[], []⟩ =
       (applyChanges [⟨"b.txt".data, "noop".data, none⟩] "/proj".data false ⟨[], []⟩).map
         (fun out => ({ change := ⟨"a.txt".data, "create".data, none⟩, status := .skipped,
                        message := some "Missing content for create/update action.".data }
                        :: out.1, out.2.1, out.2.2))) :=
  ⟨⟨by decide, rfl, by decide⟩,
    missingContent_skip ⟨"a.txt".data, "create".data, none⟩
      [⟨"b.txt".data, "noop".data, none⟩] "/proj".data false ⟨[], []⟩ "/proj/a.txt".data
      (by decide) rfl (by decide)⟩

/-- C7: delete is idempotent in real mode: whether or not the target file
exists, the delete succeeds with status `deleted` — a "file does not
exist" unlink outcome is normalised to success and never raised — so the
same delete applied twice never raises and both calls record `deleted`
(the second with the state unchanged); any unlink failure other than
file-absence becomes a `FileSystemOperationError`. -/
theorem delete_idempotent (change : AgentFileChange) (rootDir : Str) (fs : FS) (p : Str)
    (hact : change.action = "delete".data)
    (hres : resolveProjectPath rootDir change.path = .ok p) :
    (∃ r1 fs1 e1, applySingleChange change rootDir false fs = .ok (r1, fs1, e1) ∧
       r1.status = .deleted ∧
       ∃ r2 fs2 e2, applySingleChange change rootDir false fs1 = .ok (r2, fs2, e2) ∧
         r2.status = .deleted ∧ fs2 = fs1 ∧
         r2.message = some "File deleted (or already absent).".data) ∧
    deleteFileSafeOutcome .enoent = .ok () ∧
    deleteFileSafeOutcome .otherError = .error .fileSystemOperationError := by
  have hne : ¬ (change.action = "create".data ∨ change.action = "update".data) := by
    rw [hact]
    decide
  have key : ∀ fsx : FS, applySingleChange change rootDir false fsx =
      .ok ({ change := change, status := .deleted,
             message := some "File deleted (or already absent).".data },
           (unlink p fsx).2, ["DELETE: ".data ++ change.path]) := by
    intro fsx
    rw [applySingleChange_eq]
    unfold specOp nextFS eventFor
    rw [hres]
    dsimp only
    rw [if_neg hne, if_neg hne, if_neg hne, if_pos hact, if_pos hact, if_pos hact]
    rfl
  refine ⟨⟨_, _, _, key fs, rfl, _, _, _, key ((unlink p fs).2), rfl, ?_, rfl⟩, rfl, rfl⟩
  exact unlink_idem p ((unlink p fs).2) (unlink_noFile p fs)

/-- Witness for C7: deleting `a.txt` twice starting from a state where the
file exists; both calls report `deleted`. -/
theorem delete_idempotent_witness :
    ((("delete".data : Str) = "delete".data) ∧
     resolveProjectPath "/proj".data "a.txt".data = .ok "/proj/a.txt".data) ∧
    ((∃ r1 fs1 e1,
        applySingleChange ⟨"a.txt".data, "delete".data, none⟩ "/proj".data false
            ⟨[("/proj/a.txt".data, "hi".data)], ["/proj".data]⟩ = .ok (r1, fs1, e1) ∧
        r1.status = .deleted ∧
        ∃ r2 fs2 e2,
          applySingleChange ⟨"a.txt".data, "delete".data, none⟩ "/proj".data false fs1 =
            .ok (r2, fs2, e2) ∧
          r2.status = .deleted ∧ fs2 = fs1 ∧
          r2.message = some "File deleted (or already absent).".data) ∧
     deleteFileSafeOutcome .enoent = .ok () ∧
     deleteFileSafeOutcome .otherError = .error .fileSystemOperationError) :=
  ⟨⟨rfl, by decide⟩,
    delete_idempotent ⟨"a.txt".data, "delete".data, none⟩ "/proj".data
      ⟨[("/proj/a.txt".data, "hi".data)], ["/proj".data]⟩ "/proj/a.txt".data rfl (by decide)⟩

/-- Counterexample for C8: a `noop` change whose path escapes the root
does abort the batch — `applyAgentResult` raises `InvalidPathError`
because the path is resolved before the action dispatch. -/
theorem noopSkip_counterexample :
    applyAgentResult [⟨"../x".data, "noop".data, none⟩] "/proj".data false ⟨[], []⟩ =
      .error .invalidPathError := by
  decide

/-- C8 (amended): for every change whose action is `noop` or any
unrecognized value and whose path resolves inside the sandbox, in both
modes the engine performs no filesystem effect, records `skipped` with the
noop message, emits the SKIP event, and continues with the rest of the
batch. -/
theorem noopSkip (change : AgentFileChange) (rest : List AgentFileChange) (rootDir : Str)
    (dryRun : Bool) (fs : FS) (p : Str)
    (hact1 : ¬ (change.action = "create".data ∨ change.action = "update".data))
    (hact2 : ¬ change.action = "delete".data)
    (hres : resolveProjectPath rootDir change.path = .ok p) :
    applySingleChange change rootDir dryRun fs =
      .ok ({ change := change, status := .skipped,
             message := some "No action (noop).".data },
           fs, ["SKIP (noop): ".data ++ change.path]) ∧
    applyChanges (change :: rest) rootDir dryRun fs =
      (applyChanges rest rootDir dryRun fs).map
        (fun out => ({ change := change, status := .skipped,
                       message := some "No action (noop).".data } :: out.1,
                     out.2.1, ("SKIP (noop): ".data ++ change.path) :: out.2.2)) := by
  have h1 : applySingleChange change rootDir dryRun fs =
      .ok ({ change := change, status := .skipped,
             message := some "No action (noop).".data },
           fs, ["SKIP (noop): ".data ++ change.path]) := by
    rw [applySingleChange_eq]
    unfold specOp nextFS eventFor
    rw [hres]
    dsimp only
    rw [if_neg hact1, if_neg hact1, if_neg hact1, if_neg hact2, if_neg hact2, if_neg hact2]
    rfl
  refine ⟨h1, ?_⟩
  rw [applyChanges_cons change rest rootDir dryRun fs _ fs _ h1]
  cases h2 : applyChanges rest rootDir dryRun fs with
  | error e => rfl
  | ok out =>
    rcases out with ⟨ops, fs2, evs2⟩
    rfl

/-- Witness for C8 (amended): an unrecognized action `frobnicate` with an
in-sandbox path is a structural skip and leaves the state unchanged. -/
theorem noopSkip_witness :
    ((¬ (("frobnicate".data : Str) = "create".data ∨
         ("frobnicate".data : Str) = "update".data)) ∧
     (¬ ("frobnicate".data : Str) = "delete".data) ∧
     resolveProjectPath "/proj".data "c.txt".data = .ok "/proj/c.txt".data) ∧
    (applySingleChange ⟨"c.txt".data, "frobnicate".data, none⟩ "/proj".data false ⟨[], []⟩ =
       .ok ({ change := ⟨"c.txt".data, "frobnicate".data, none⟩, status := .skipped,
              message := some "No action (noop).".data },
            ⟨[], []⟩, ["SKIP (noop): ".data ++ "c.txt".data]) ∧
     applyChanges [⟨"c.txt".data, "frobnicate".data, none⟩] "/proj".data false ⟨[], []⟩ =
       (applyChanges [] "/proj".data false ⟨[], []⟩).map
         (fun out => ({ change := ⟨"c.txt".data, "frobnicate".data, none⟩, status := .skipped,
                        message := some "No action (noop).".data } :: out.1,
                      out.2.1, ("SKIP (noop): ".data ++ "c.txt".data) :: out.2.2))) :=
  ⟨⟨by decide, by decide, by decide⟩,
    noopSkip ⟨"c.txt".data, "frobnicate".data, none⟩ [] "/proj".data false ⟨[], []⟩
      "/proj/c.txt".data (by decide) (by decide) (by decide)⟩

theorem filterMap_length_le {α β : Type} (f : α → Option β) :
    ∀ l : List α, (l.filterMap f).length ≤ l.length := by
  intro l
  induction l with
  | nil => exact Nat.le_refl 0
  | cons a rest ih =>
    rw [List.filterMap_cons]
    cases f a with
    | none => exact Nat.le_succ_of_le ih
    | some b => exact Nat.succ_le_succ ih

/-- Counterexample for C9: a batch with one change (a contentless
`create`) completes with an empty observer event list — the observer is
invoked zero times, not once, for that change, because the missing-content
early return skips the logger call. -/
theorem observer_once_counterexample :
    (applyAgentResult [⟨"a.txt".data, "create".data, none⟩] "/proj".data false ⟨[], []⟩ =
       .ok ({ operations := [⟨⟨"a.txt".data, "create".data, none⟩, .skipped,
                             some "Missing content for create/update action.".data⟩],
              dryRun := false, counts := ⟨0, 0, 0, 1⟩ }, ⟨[], []⟩, [])) ∧
    ([] : List Str).length ≠
      [(⟨"a.txt".data, "create".data, none⟩ : AgentFileChange)].length :=
  ⟨by decide, by decide⟩

/-- C9 (amended): when apply completes, the observer events are exactly
one descriptive string per change in input order, except create/update
changes with absent content, which emit no event; hence at most one event
per change, and exactly one per change whenever no create/update change
lacks content. -/
theorem observer_events (files : List AgentFileChange) (rootDir : Str) (dryRun : Bool)
    (fs : FS) (s : ApplyAgentResultSummary) (fs' : FS) (evs : List Str)
    (h : applyAgentResult files rootDir dryRun fs = .ok (s, fs', evs)) :
    evs = expectedEvents files ∧ evs.length ≤ files.length ∧
      ((∀ c ∈ files, (c.action = "create".data ∨ c.action = "update".data) →
          c.content ≠ none) → evs.length = files.length) := by
  obtain ⟨hch, _, _⟩ := applyAgentResult_ok_elim h
  have hevs := applyChanges_events files rootDir dryRun fs (s.operations, fs', evs) hch
  dsimp only at hevs
  refine ⟨hevs, ?_, ?_⟩
  · rw [hevs]
    exact filterMap_length_le eventFor files
  · intro hall
    rw [hevs]
    exact filterMap_length_eq eventFor files (fun c hc => eventFor_isSome (hall c hc))

/-- Concrete change list for the C9 witness. -/
def c9files : List AgentFileChange := [⟨"a.txt".data, "create".data, some "hi".data⟩]

/-- The summary the engine returns for `c9files` in write mode. -/
def c9summary : ApplyAgentResultSummary :=
  ⟨[⟨⟨"a.txt".data, "create".data, some "hi".data⟩, .created,
     some "File written successfully.".data⟩], false, ⟨1, 0, 0, 0⟩⟩

/-- Witness for C9 (amended): one `create` with content yields exactly one
event, in input order. -/
theorem observer_events_witness :
    (applyAgentResult c9files "/proj".data false ⟨[], []⟩ =
       .ok (c9summary, ⟨[("/proj/a.txt".data, "hi".data)], ["/proj".data]⟩,
            ["CREATE: a.txt".data])) ∧
    ((["CREATE: a.txt".data] : List Str) = expectedEvents c9files ∧
     (["CREATE: a.txt".data] : List Str).length ≤ c9files.length ∧
     ((∀ c ∈ c9files, (c.action = "create".data ∨ c.action = "update".data) →
         c.content ≠ none) →
       (["CREATE: a.txt".data] : List Str).length = c9files.length)) := by
  have h : applyAgentResult c9files "/proj".data false ⟨[], []⟩ =
      .ok (c9summary, ⟨[("/proj/a.txt".data, "hi".data)], ["/proj".data]⟩,
           ["CREATE: a.txt".data]) := by decide
  exact ⟨h, observer_events c9files "/proj".data false ⟨[], []⟩ c9summary
    ⟨[("/proj/a.txt".data, "hi".data)], ["/proj".data]⟩ ["CREATE: a.txt".data] h⟩

/-- C10: assuming no filesystem primitive fails (which the pure model
makes intrinsic), the summary returned by apply — statuses, messages,
echoed changes, counts and the dryRun flag — does not depend on the prior
filesystem state: two runs over the same change list and options against
different directories return identical summaries. -/
theorem summary_fs_independent (files : List AgentFileChange) (rootDir : Str)
    (dryRun : Bool) (fs1 fs2 : FS) :
    (applyAgentResult files rootDir dryRun fs1).map (fun x => x.1) =
      (applyAgentResult files rootDir dryRun fs2).map (fun x => x.1) := by
  rw [applyAgentResult_fst, applyAgentResult_fst]
